import Mathlib

/-!
Verification of the nufmt layout engine (crates/nufmt-core) against its
natural-language specification.

Modelling conventions.

Source text is embedded as `List Char` (the formatter manipulates source at
character granularity; the repository's byte spans coincide with character
indices on the ASCII sources at issue). Rust `&str` helpers (`trim`,
`split('\n')`, `find`, `strip_prefix`, ...) are given char-list counterparts
below with the same semantics.

The emitter builds `pretty::DocBuilder` values, but it only ever uses
`nil`, `text`, `space`, `hardline`, `append`, `concat` and `intersperse` -
never `group`, `line` or `softline` - so `render_fmt` is string
concatenation: `nil = ""`, `space = " "`, `hardline = "\n"`, `text s = s`.
Documents are therefore embedded directly as strings (`List Char`).

Definitions keep the source's names (snake_case) where they embed a Rust
item; claim-side definitions written from the specification's own words are
suffixed `Spec`.
-/

namespace Nufmt

/-- Source text and document output, as a list of characters. -/
abbrev Str := List Char

/-- The single-quote character (written numerically to keep escapes out of
the development). -/
def squo : Char := Char.ofNat 39

/-- The double-quote character. -/
def dquo : Char := Char.ofNat 34

/-- The backslash character. -/
def bslash : Char := Char.ofNat 92

/-- Rust `char::is_whitespace`, restricted to the ASCII whitespace the
formatter encounters (space, tab, carriage return, newline). -/
def isWs (c : Char) : Bool := c.isWhitespace

/-- Rust `str::trim_start`. -/
def trimStart (s : Str) : Str := s.dropWhile isWs

/-- Rust `str::trim_end`. -/
def trimEnd (s : Str) : Str := (s.reverse.dropWhile isWs).reverse

/-- Rust `str::trim`. -/
def trim (s : Str) : Str := trimEnd (trimStart s)

/-- Rust `str::starts_with(c)` for a single character. -/
def startsWith (s : Str) (c : Char) : Bool := s.head? == some c

/-- Rust `str::ends_with(c)` for a single character. -/
def endsWith (s : Str) (c : Char) : Bool := s.getLast? == some c

/-- Rust `str::contains(c)` for a single character. -/
def hasChar (s : Str) (c : Char) : Bool := s.contains c

/-- Rust `str::contains(pat)` for a multi-character pattern. -/
def hasSub : Str → Str → Bool
  | [], pat => pat.isEmpty
  | x :: rest, pat => pat.isPrefixOf (x :: rest) || hasSub rest pat

/-- Count occurrences of a character (Rust `s.chars().filter(...).count()`). -/
def countChar (c : Char) (s : Str) : Nat := s.countP (fun x => x == c)

/-- Rust `str::split(c)`: split on a separator character, keeping empty
pieces (`"a\nb".split = [a, b]`, `"\n".split = ["", ""]`, `"".split = [""]`). -/
def splitOnChar (c : Char) : Str → List Str
  | [] => [[]]
  | x :: rest =>
    match splitOnChar c rest with
    | [] => [[x]]
    | h :: t => if x = c then [] :: h :: t else (x :: h) :: t

/-- Rust `str::find(c)`: index of the first occurrence of a character. -/
def findChar (s : Str) (c : Char) : Option Nat := s.findIdx? (fun x => x == c)

/-- Rust `str::strip_prefix(c)` for a single character. -/
def stripPrefixChar (c : Char) : Str → Option Str
  | [] => none
  | x :: rest => if x = c then some rest else none

/-- Rust `str::strip_suffix(c)` for a single character. -/
def stripSuffixChar (c : Char) (s : Str) : Option Str :=
  if endsWith s c then some s.dropLast else none

/-- Rust `str::trim_end_matches(c)`: remove every trailing occurrence of a
character. -/
def trimEndMatches (c : Char) (s : Str) : Str :=
  (s.reverse.dropWhile (fun x => x == c)).reverse

/-! Configuration (crates/nufmt-core/src/config.rs). -/

/-- Preferred quote style for strings (config.rs `QuoteStyle`). -/
inductive QuoteStyle where
  | preserve
  | double
  | single
deriving DecidableEq, Repr

/-- Whether to add spaces inside brackets (config.rs `BracketSpacing`). -/
inductive BracketSpacing where
  | spaced
  | compact
deriving DecidableEq, Repr

/-- Whether to add trailing commas in multiline collections (config.rs
`TrailingComma`). -/
inductive TrailingComma where
  | always
  | never
deriving DecidableEq, Repr

/-- Formatting configuration (config.rs `Config`). -/
structure Config where
  indent_width : Nat
  max_width : Nat
  quote_style : QuoteStyle
  bracket_spacing : BracketSpacing
  trailing_comma : TrailingComma
deriving Repr

/-- Default configuration (config.rs `Default for Config`). -/
def Config.default : Config :=
  { indent_width := 2
    max_width := 100
    quote_style := QuoteStyle.double
    bracket_spacing := BracketSpacing.spaced
    trailing_comma := TrailingComma.always }

/-- Configuration validation (config.rs `Config::validate`), as the
predicate of configurations it accepts. -/
def Config.valid (c : Config) : Bool :=
  !(c.indent_width == 0 || decide (c.indent_width > 16)) &&
  !(decide (c.max_width < 20) || decide (c.max_width > 500))

/-! String canonicalizer (crates/nufmt-core/src/format/string.rs). -/

/-- Convert a string to double quotes if possible (string.rs
`to_double_quotes`). -/
def to_double_quotes (token : Str) : Str :=
  if startsWith token dquo then token
  else
    match (stripPrefixChar squo token).bind (stripSuffixChar squo) with
    | some content =>
      if hasChar content dquo || hasChar content bslash then token
      else dquo :: (content ++ [dquo])
    | none => token

/-- Convert a string to single quotes if possible (string.rs
`to_single_quotes`). -/
def to_single_quotes (token : Str) : Str :=
  if startsWith token squo then token
  else
    match (stripPrefixChar dquo token).bind (stripSuffixChar dquo) with
    | some content =>
      if hasChar content squo || hasChar content bslash then token
      else squo :: (content ++ [squo])
    | none => token

/-- Convert string quotes based on configured style (string.rs
`convert_string_quotes`). -/
def convert_string_quotes (token : Str) (style : QuoteStyle) : Str :=
  match style with
  | QuoteStyle.preserve => token
  | QuoteStyle.double => to_double_quotes token
  | QuoteStyle.single => to_single_quotes token

/-! Claim-side restatement of the canonicalizer contract, written from the
specification's own words (spec section 4.2): the text is returned
unchanged unless it is exactly a quoted literal in the other style whose
inner content contains neither the target quote nor a backslash. -/

/-- Inner content of a quoted literal: the text with its first and last
characters removed. -/
def innerOf (text : Str) : Str := (text.drop 1).dropLast

/-- Whether the text is a quoted literal `q ... q` (length at least two,
first and last characters both the quote). -/
def isQuotedWith (q : Char) (text : Str) : Bool :=
  decide (2 ≤ text.length) && (text.head? == some q) && (text.getLast? == some q)

/-- Modelled from the spec: the section 4.2 rule for target `double` - if
the text starts with a double quote, unchanged; else if the text is a
single-quoted literal whose inner content contains neither a double quote
nor a backslash, requote it; else unchanged. -/
def doubleQuoteSpec (text : Str) : Str :=
  if startsWith text dquo then text
  else if isQuotedWith squo text &&
      !(hasChar (innerOf text) dquo) && !(hasChar (innerOf text) bslash) then
    dquo :: (innerOf text ++ [dquo])
  else text

/-- Modelled from the spec: the symmetric section 4.2 rule for target
`single`. -/
def singleQuoteSpec (text : Str) : Str :=
  if startsWith text squo then text
  else if isQuotedWith dquo text &&
      !(hasChar (innerOf text) squo) && !(hasChar (innerOf text) bslash) then
    squo :: (innerOf text ++ [squo])
  else text

/-- Modelled from the spec: the full section 4.2 canonicalizer contract. -/
def quoteSpec (text : Str) (style : QuoteStyle) : Str :=
  match style with
  | QuoteStyle.preserve => text
  | QuoteStyle.double => doubleQuoteSpec text
  | QuoteStyle.single => singleQuoteSpec text

/-! Helper lemmas about the canonicalizer. -/

theorem getLast?_cons_of_ne_nil {x : Char} {rest : Str} (h : rest ≠ []) :
    (x :: rest).getLast? = rest.getLast? := by
  cases rest with
  | nil => exact absurd rfl h
  | cons y t => simp [List.getLast?_cons_cons]

theorem stripSuffixChar_eq (q : Char) (s : Str) :
    stripSuffixChar q s = if s.getLast? = some q then some s.dropLast else none := by
  unfold stripSuffixChar endsWith
  by_cases h : s.getLast? = some q
  · simp [h]
  · simp [h]

theorem strip_quotes_eq (q : Char) (t : Str) :
    (stripPrefixChar q t).bind (stripSuffixChar q) =
      if isQuotedWith q t = true then some (innerOf t) else none := by
  cases t with
  | nil =>
    have h : isQuotedWith q [] = false := rfl
    simp [stripPrefixChar, h]
  | cons x rest =>
    simp only [stripPrefixChar]
    by_cases hx : x = q
    · simp only [if_pos hx, Option.some_bind, stripSuffixChar_eq]
      by_cases he : rest.getLast? = some q
      · have hrest : rest ≠ [] := by
          intro hnil; subst hnil; simp at he
        have hlen : 2 ≤ (x :: rest).length := by
          have h1 : 1 ≤ rest.length := List.length_pos.mpr hrest
          simp only [List.length_cons]; omega
        have hq : isQuotedWith q (x :: rest) = true := by
          unfold isQuotedWith
          rw [getLast?_cons_of_ne_nil hrest, he]
          simp [hx, hlen]
          exact List.length_pos.mpr hrest
        rw [if_pos he, if_pos hq]
        unfold innerOf
        simp
      · have hq : ¬ (isQuotedWith q (x :: rest) = true) := by
          unfold isQuotedWith
          intro hcon
          simp only [Bool.and_eq_true, beq_iff_eq, decide_eq_true_eq] at hcon
          have hlast := hcon.2
          have hlen := hcon.1.1
          have hrest : rest ≠ [] := by
            intro hnil; subst hnil; simp at hlen
          rw [getLast?_cons_of_ne_nil hrest] at hlast
          exact he hlast
        rw [if_neg he, if_neg hq]
    · have hq : ¬ (isQuotedWith q (x :: rest) = true) := by
        unfold isQuotedWith
        intro hcon
        simp only [Bool.and_eq_true, beq_iff_eq, decide_eq_true_eq] at hcon
        have hh := hcon.1.2
        simp only [List.head?_cons, Option.some.injEq] at hh
        exact hx hh
      rw [if_neg hx, Option.none_bind, if_neg hq]

theorem to_double_eq_spec (t : Str) : to_double_quotes t = doubleQuoteSpec t := by
  unfold to_double_quotes doubleQuoteSpec
  rw [strip_quotes_eq]
  by_cases hd : startsWith t dquo = true
  · simp [hd]
  · simp only [Bool.not_eq_true] at hd
    by_cases hq : isQuotedWith squo t = true
    · by_cases h1 : hasChar (innerOf t) dquo = true
      · simp [hd, hq, h1]
      · by_cases h2 : hasChar (innerOf t) bslash = true
        · simp only [Bool.not_eq_true] at h1
          simp [hd, hq, h1, h2]
        · simp only [Bool.not_eq_true] at h1 h2
          simp [hd, hq, h1, h2]
    · simp only [Bool.not_eq_true] at hq
      simp [hd, hq]

theorem to_single_eq_spec (t : Str) : to_single_quotes t = singleQuoteSpec t := by
  unfold to_single_quotes singleQuoteSpec
  rw [strip_quotes_eq]
  by_cases hd : startsWith t squo = true
  · simp [hd]
  · simp only [Bool.not_eq_true] at hd
    by_cases hq : isQuotedWith dquo t = true
    · by_cases h1 : hasChar (innerOf t) squo = true
      · simp [hd, hq, h1]
      · by_cases h2 : hasChar (innerOf t) bslash = true
        · simp only [Bool.not_eq_true] at h1
          simp [hd, hq, h1, h2]
        · simp only [Bool.not_eq_true] at h1 h2
          simp [hd, hq, h1, h2]
    · simp only [Bool.not_eq_true] at hq
      simp [hd, hq]

theorem convert_eq_quoteSpec (t : Str) (s : QuoteStyle) :
    convert_string_quotes t s = quoteSpec t s := by
  cases s with
  | preserve => rfl
  | double => exact to_double_eq_spec t
  | single => exact to_single_eq_spec t

theorem quoted_decomp {q : Char} {t : Str} (h : isQuotedWith q t = true) :
    t = q :: (innerOf t ++ [q]) := by
  unfold isQuotedWith at h
  simp only [Bool.and_eq_true, beq_iff_eq, decide_eq_true_eq] at h
  cases t with
  | nil => simp at h
  | cons x rest =>
    have hhead : x = q := by
      have h1 := h.1.2
      simpa using h1
    have hlen := h.1.1
    have hlast := h.2
    have hrest : rest ≠ [] := by
      intro hnil; subst hnil; simp at hlen
    rw [getLast?_cons_of_ne_nil hrest] at hlast
    have hdecomp : rest.dropLast ++ [rest.getLast hrest] = rest :=
      List.dropLast_append_getLast hrest
    have hg : rest.getLast hrest = q := by
      have h2 := List.getLast?_eq_getLast rest hrest
      rw [h2] at hlast
      exact Option.some.inj hlast
    have hinner : innerOf (x :: rest) = rest.dropLast := by
      unfold innerOf; simp
    rw [hinner, hhead]
    rw [hg] at hdecomp
    rw [hdecomp]

theorem doubleQuoteSpec_cases (t : Str) :
    doubleQuoteSpec t = t ∨
      (isQuotedWith squo t = true ∧
        doubleQuoteSpec t = dquo :: (innerOf t ++ [dquo])) := by
  unfold doubleQuoteSpec
  split
  · left; rfl
  · split
    · next hcond =>
      right
      simp only [Bool.and_eq_true] at hcond
      exact ⟨by tauto, rfl⟩
    · left; rfl

theorem singleQuoteSpec_cases (t : Str) :
    singleQuoteSpec t = t ∨
      (isQuotedWith dquo t = true ∧
        singleQuoteSpec t = squo :: (innerOf t ++ [squo])) := by
  unfold singleQuoteSpec
  split
  · left; rfl
  · split
    · next hcond =>
      right
      simp only [Bool.and_eq_true] at hcond
      exact ⟨by tauto, rfl⟩
    · left; rfl

theorem doubleQuoteSpec_fix_of_dquo (l : Str) :
    doubleQuoteSpec (dquo :: l) = dquo :: l := by
  unfold doubleQuoteSpec
  simp [startsWith]

theorem singleQuoteSpec_fix_of_squo (l : Str) :
    singleQuoteSpec (squo :: l) = squo :: l := by
  unfold singleQuoteSpec
  simp [startsWith]

theorem doubleQuoteSpec_idem (t : Str) :
    doubleQuoteSpec (doubleQuoteSpec t) = doubleQuoteSpec t := by
  rcases doubleQuoteSpec_cases t with h | ⟨_, h⟩
  · rw [h, h]
  · rw [h, doubleQuoteSpec_fix_of_dquo]

theorem singleQuoteSpec_idem (t : Str) :
    singleQuoteSpec (singleQuoteSpec t) = singleQuoteSpec t := by
  rcases singleQuoteSpec_cases t with h | ⟨_, h⟩
  · rw [h, h]
  · rw [h, singleQuoteSpec_fix_of_squo]

/-- C8: the string canonicalizer satisfies the section 4.2 contract: with
`preserve` the text is unchanged; with target `double` it is unchanged when
it starts with a double quote, requoted when it is a single-quoted literal
whose inner content contains neither a double quote nor a backslash, and
unchanged otherwise; with target `single` the symmetric rule holds. -/
theorem canonicalizer_meets_quote_spec (t : Str) (s : QuoteStyle) :
    convert_string_quotes t s = quoteSpec t s :=
  convert_eq_quoteSpec t s

/-- C8 witness: the contract evaluated at the single-quoted literal
`'hi'` under target `double`. -/
theorem canonicalizer_meets_quote_spec_witness :
    convert_string_quotes [squo, Char.ofNat 104, Char.ofNat 105, squo]
        QuoteStyle.double =
      quoteSpec [squo, Char.ofNat 104, Char.ofNat 105, squo] QuoteStyle.double :=
  canonicalizer_meets_quote_spec [squo, Char.ofNat 104, Char.ofNat 105, squo]
    QuoteStyle.double

/-- C9: quote conversion is content-preserving - whenever
`convert_string_quotes` returns a result different from its input, the
input was a quoted literal and the result is the same inner content with
only the two boundary quote characters replaced. -/
theorem quote_conversion_preserves_inner (t : Str) (s : QuoteStyle)
    (h : convert_string_quotes t s ≠ t) :
    ∃ inner,
      (t = squo :: (inner ++ [squo]) ∧
        convert_string_quotes t s = dquo :: (inner ++ [dquo])) ∨
      (t = dquo :: (inner ++ [dquo]) ∧
        convert_string_quotes t s = squo :: (inner ++ [squo])) := by
  cases s with
  | preserve => exact absurd rfl h
  | double =>
    have hc : convert_string_quotes t QuoteStyle.double = doubleQuoteSpec t :=
      to_double_eq_spec t
    rcases doubleQuoteSpec_cases t with heq | ⟨hq, heq⟩
    · rw [hc, heq] at h
      exact absurd rfl h
    · exact ⟨innerOf t, Or.inl ⟨quoted_decomp hq, by rw [hc, heq]⟩⟩
  | single =>
    have hc : convert_string_quotes t QuoteStyle.single = singleQuoteSpec t :=
      to_single_eq_spec t
    rcases singleQuoteSpec_cases t with heq | ⟨hq, heq⟩
    · rw [hc, heq] at h
      exact absurd rfl h
    · exact ⟨innerOf t, Or.inr ⟨quoted_decomp hq, by rw [hc, heq]⟩⟩

/-- C9 witness: quote conversion changes `'hi'` to `"hi"` and the inner
content `hi` is untouched. -/
theorem quote_conversion_preserves_inner_witness :
    ∃ inner,
      (([squo, Char.ofNat 104, Char.ofNat 105, squo] : Str) =
          squo :: (inner ++ [squo]) ∧
        convert_string_quotes [squo, Char.ofNat 104, Char.ofNat 105, squo]
            QuoteStyle.double = dquo :: (inner ++ [dquo])) ∨
      (([squo, Char.ofNat 104, Char.ofNat 105, squo] : Str) =
          dquo :: (inner ++ [dquo]) ∧
        convert_string_quotes [squo, Char.ofNat 104, Char.ofNat 105, squo]
            QuoteStyle.double = squo :: (inner ++ [squo])) :=
  quote_conversion_preserves_inner
    [squo, Char.ofNat 104, Char.ofNat 105, squo] QuoteStyle.double (by decide)

/-- C10: quote conversion is idempotent - converting the result of a
conversion again with the same quote style returns it unchanged, for every
token and style. -/
theorem quote_conversion_idempotent (t : Str) (s : QuoteStyle) :
    convert_string_quotes (convert_string_quotes t s) s =
      convert_string_quotes t s := by
  cases s with
  | preserve => rfl
  | double =>
    calc convert_string_quotes (convert_string_quotes t QuoteStyle.double)
          QuoteStyle.double
        = doubleQuoteSpec (doubleQuoteSpec t) := by
          show to_double_quotes (to_double_quotes t) = _
          rw [to_double_eq_spec, to_double_eq_spec]
      _ = doubleQuoteSpec t := doubleQuoteSpec_idem t
      _ = convert_string_quotes t QuoteStyle.double :=
          (to_double_eq_spec t).symm
  | single =>
    calc convert_string_quotes (convert_string_quotes t QuoteStyle.single)
          QuoteStyle.single
        = singleQuoteSpec (singleQuoteSpec t) := by
          show to_single_quotes (to_single_quotes t) = _
          rw [to_single_eq_spec, to_single_eq_spec]
      _ = singleQuoteSpec t := singleQuoteSpec_idem t
      _ = convert_string_quotes t QuoteStyle.single :=
          (to_single_eq_spec t).symm

/-! Token preprocessing (crates/nufmt-core/src/format/token.rs). -/

/-- Token shapes used by the formatter: the subset of nu_parser `FlatShape`
variants the emitter dispatches on, plus `nothing` (`FlatShape::Nothing`,
the synthetic trailing token) and a catch-all `other` standing for every
remaining variant (they all take the default emission path). -/
inductive Shape where
  | pipe
  | block
  | closure
  | record
  | list
  | string
  | stringInterpolation
  | nothing
  | other
deriving DecidableEq, Repr

/-- A span into the source (nu_protocol `Span`), as character offsets. The
Rust field `end` is called `stop` here because `end` is a Lean keyword. -/
structure Span where
  start : Nat
  stop : Nat
deriving DecidableEq, Repr

/-- A token with its text, shape and preceding gap (token.rs `Token`). -/
structure Token where
  text : Str
  shape : Shape
  gap_before : Str
deriving DecidableEq, Repr

/-- The source slice `source[a..b]`. -/
def slice (source : Str) (a b : Nat) : Str := (source.drop a).take (b - a)

/-- Loop of token.rs `preprocess_tokens`, with the running `last_end` made
an explicit argument. The skip test is Rust's
`span.start < last_end || span.start > span.end || span.end > source.len()`. -/
def preprocessGo (source : Str) : List (Span × Shape) → Nat → List Token
  | [], lastEnd =>
    if lastEnd < source.length then
      [{ text := [], shape := Shape.nothing,
         gap_before := slice source lastEnd source.length }]
    else []
  | (span, shape) :: rest, lastEnd =>
    if span.start < lastEnd ∨ span.start > span.stop ∨ span.stop > source.length then
      preprocessGo source rest lastEnd
    else
      { text := slice source span.start span.stop
        shape := shape
        gap_before := slice source lastEnd span.start } :: preprocessGo source rest span.stop

/-- Preprocess flattened tokens (token.rs `preprocess_tokens`). -/
def preprocess_tokens (source : Str) (flattened : List (Span × Shape)) : List Token :=
  preprocessGo source flattened 0

/-! Claim-side restatement of the preprocessor contract (spec section 4.1). -/

/-- Modelled from the spec: the section 4.1 skip condition - the pair is
dropped when `span.start < previous_end`, `span.start > span.end`, or
`span.end > |source|`. -/
def skipsPair (sourceLen previousEnd : Nat) (span : Span) : Bool :=
  decide (span.start < previousEnd) || decide (span.start > span.stop) ||
    decide (span.stop > sourceLen)

/-- Modelled from the spec: the section 4.1 walk - skip exactly the pairs
matching `skipsPair`; for each kept pair emit a token with
`gap_before = source[previous_end .. span.start]` and
`text = source[span.start .. span.end]`; after the walk, if
`previous_end < |source|`, append exactly one synthetic token with empty
text and `gap_before = source[previous_end .. end]`. -/
def preprocessSpecGo (source : Str) : List (Span × Shape) → Nat → List Token
  | [], previousEnd =>
    if previousEnd < source.length then
      [{ text := [], shape := Shape.nothing,
         gap_before := slice source previousEnd source.length }]
    else []
  | (span, shape) :: rest, previousEnd =>
    if skipsPair source.length previousEnd span then
      preprocessSpecGo source rest previousEnd
    else
      { text := slice source span.start span.stop
        shape := shape
        gap_before := slice source previousEnd span.start } ::
        preprocessSpecGo source rest span.stop

/-- Modelled from the spec: section 4.1 contract, started at offset 0. -/
def preprocessSpec (source : Str) (flattened : List (Span × Shape)) : List Token :=
  preprocessSpecGo source flattened 0

theorem skipsPair_iff (L prev : Nat) (sp : Span) :
    skipsPair L prev sp = true ↔
      (sp.start < prev ∨ sp.start > sp.stop ∨ sp.stop > L) := by
  unfold skipsPair
  simp [or_assoc]

theorem preprocessGo_eq_spec (source : Str) (flattened : List (Span × Shape)) :
    ∀ lastEnd, preprocessGo source flattened lastEnd =
      preprocessSpecGo source flattened lastEnd := by
  induction flattened with
  | nil => intro lastEnd; rfl
  | cons p rest ih =>
    intro lastEnd
    obtain ⟨span, shape⟩ := p
    unfold preprocessGo preprocessSpecGo
    by_cases hs : span.start < lastEnd ∨ span.start > span.stop ∨
        span.stop > source.length
    · rw [if_pos hs, if_pos ((skipsPair_iff source.length lastEnd span).mpr hs)]
      exact ih lastEnd
    · rw [if_neg hs,
        if_neg (fun hb => hs ((skipsPair_iff source.length lastEnd span).mp hb))]
      rw [ih span.stop]

/-- C5: the Token Preprocessor skips exactly the pairs whose span starts
before the previous end, is reversed, or overruns the source; keeps every
other pair as a token carrying gap and text slices of the source; and
appends exactly one synthetic trailing token when source remains after the
walk (section 4.1 contract). -/
theorem preprocess_matches_contract (source : Str)
    (flattened : List (Span × Shape)) :
    preprocess_tokens source flattened = preprocessSpec source flattened :=
  preprocessGo_eq_spec source flattened 0

/-! Coverage of the source by the token vector (claim C6). -/

/-- Concatenation, in order, of each token's `gap_before` followed by its
`text`. -/
def coveredText : List Token → Str
  | [] => []
  | t :: rest => t.gap_before ++ t.text ++ coveredText rest

theorem slice_append (l : Str) {a b c : Nat} (hab : a ≤ b) (hbc : b ≤ c) :
    slice l a b ++ slice l b c = slice l a c := by
  unfold slice
  have h1 : l.drop b = (l.drop a).drop (b - a) := by
    rw [List.drop_drop]
    congr 1
    omega
  rw [h1, ← List.take_add]
  congr 1
  omega

theorem preprocessGo_covers (source : Str) (flattened : List (Span × Shape)) :
    ∀ lastEnd, lastEnd ≤ source.length →
      coveredText (preprocessGo source flattened lastEnd) =
        slice source lastEnd source.length := by
  induction flattened with
  | nil =>
    intro lastEnd h
    unfold preprocessGo
    by_cases hlt : lastEnd < source.length
    · rw [if_pos hlt]
      unfold coveredText coveredText
      simp
    · rw [if_neg hlt]
      have he : lastEnd = source.length := by omega
      subst he
      unfold coveredText
      simp [slice]
  | cons p rest ih =>
    intro lastEnd h
    obtain ⟨span, shape⟩ := p
    unfold preprocessGo
    by_cases hs : span.start < lastEnd ∨ span.start > span.stop ∨
        span.stop > source.length
    · rw [if_pos hs]
      exact ih lastEnd h
    · rw [if_neg hs]
      push_neg at hs
      obtain ⟨h1, h2, h3⟩ := hs
      unfold coveredText
      rw [ih span.stop h3]
      rw [List.append_assoc]
      rw [slice_append source h2 (le_trans (Nat.le_of_lt_succ (Nat.lt_succ_of_le h3)) (le_refl _))]
      exact slice_append source h1 (le_trans h2 h3) ▸ rfl

/-- C6: the token vector produced by `preprocess_tokens` covers the source
exactly - concatenating, in order, each token's `gap_before` followed by
its `text` (the terminal synthetic token included) yields the original
source string. -/
theorem preprocess_covers_source (source : Str)
    (flattened : List (Span × Shape)) :
    coveredText (preprocess_tokens source flattened) = source := by
  unfold preprocess_tokens
  rw [preprocessGo_covers source flattened 0 (Nat.zero_le _)]
  unfold slice
  simp

/-! Layout emitter (crates/nufmt-core/src/format/mod.rs). Named characters
for the delimiters the emitter tests, written numerically. -/

/-- Opening brace. -/
def obrace : Char := Char.ofNat 123

/-- Closing brace. -/
def cbrace : Char := Char.ofNat 125

/-- Opening square bracket. -/
def obrack : Char := Char.ofNat 91

/-- Closing square bracket. -/
def cbrack : Char := Char.ofNat 93

/-- Opening parenthesis. -/
def oparen : Char := Char.ofNat 40

/-- Closing parenthesis. -/
def cparen : Char := Char.ofNat 41

/-- Newline. -/
def nl : Char := Char.ofNat 10

/-- Carriage return. -/
def crChar : Char := Char.ofNat 13

/-- Space. -/
def spaceChar : Char := Char.ofNat 32

/-- Vertical bar. -/
def pipeChar : Char := Char.ofNat 124

/-- Hash (comment starter). -/
def hashChar : Char := Char.ofNat 35

/-- Colon. -/
def colonChar : Char := Char.ofNat 58

/-- Comma. -/
def commaChar : Char := Char.ofNat 44

/-- Dollar sign. -/
def dollarChar : Char := Char.ofNat 36

/-- Full stop. -/
def dotChar : Char := Char.ofNat 46

/-- Rust `line.starts_with(char::is_whitespace)`. -/
def startsWithWs (s : Str) : Bool :=
  match s.head? with
  | some c => isWs c
  | none => false

/-- Rust `line.ends_with(char::is_whitespace)`. -/
def endsWithWs (s : Str) : Bool :=
  match s.getLast? with
  | some c => isWs c
  | none => false

/-- Join of a doc vector (the emitter's `arena.concat(docs)`). -/
def joinDocs (ds : List Str) : Str := ds.flatten

/-- Rust `arena.intersperse(docs, sep)`. -/
def intersperseJoin (ds : List Str) (sep : Str) : Str := (ds.intersperse sep).flatten

/-- Closure parameter parsing (closure.rs `parse_closure_params`). -/
def parse_closure_params (content : Str) : Option Str × Str :=
  let trimmed := trimStart content
  if !(startsWith trimmed pipeChar) then (none, content)
  else
    match findChar (trimmed.drop 1) pipeChar with
    | none => (none, content)
    | some close =>
      let paramsEnd := close + 2
      (some (trimmed.take paramsEnd), trimmed.drop paramsEnd)

/-- The emitter's mutable state (mod.rs `Formatter`): the fields `tokens`,
`config` and `index` are passed explicitly, the two counters live here. -/
structure FmtSt where
  indent_level : Nat
  interp_depth : Nat
deriving DecidableEq, Repr

/-- Indentation string for the current level (mod.rs `Formatter::indent_str`). -/
def indent_str (cfg : Config) (st : FmtSt) : Str :=
  List.replicate (st.indent_level * cfg.indent_width) spaceChar

/-- Loop of mod.rs `Formatter::estimate_delimited_length`, walking the
remaining tokens with the running depth, accumulated length and newline
flag. `usize` subtraction cannot underflow here (the loop guard keeps the
depth positive and an open is added before a close is subtracted), so Nat
subtraction is exact. -/
def estimateGo (shapeMatches : Shape → Bool) (isOpenTok isCloseTok : Str → Bool)
    (tokenLen : Str → Nat → Nat) :
    List Token → Nat → Nat → Bool → Nat × Bool
  | [], _, length, hasNl => (length, hasNl)
  | t :: rest, depth, length, hasNl =>
    if depth = 0 then (length, hasNl)
    else
      let hasNl2 := hasNl || hasChar t.gap_before nl
      let gapTrimmed := trim t.gap_before
      let len2 :=
        if !gapTrimmed.isEmpty then length + gapTrimmed.length + 1
        else if !t.gap_before.isEmpty then length + 1
        else length
      let trimmed := trim t.text
      let depth2 :=
        if shapeMatches t.shape then
          let d1 := if isOpenTok trimmed then depth + 1 else depth
          if isCloseTok trimmed then d1 - 1 else d1
        else depth
      let len3 := len2 + tokenLen trimmed depth2
      estimateGo shapeMatches isOpenTok isCloseTok tokenLen rest depth2 len3 hasNl2

/-- Generic estimation of delimited content length (mod.rs
`Formatter::estimate_delimited_length`): starts after the opener at
`index`, with depth 1 and initial length 2. -/
def estimate_delimited_length (tokens : List Token) (index : Nat)
    (shapeMatches : Shape → Bool) (isOpenTok isCloseTok : Str → Bool)
    (tokenLen : Str → Nat → Nat) : Nat × Bool :=
  estimateGo shapeMatches isOpenTok isCloseTok tokenLen (tokens.drop index) 1 2 false

/-- Shape filter for collections (`Record` or `List`). -/
def collectionShapeMatches (s : Shape) : Bool :=
  s == Shape.record || s == Shape.list

/-- Shape filter for blocks (`Block` or `Closure`). -/
def blockShapeMatches (s : Shape) : Bool :=
  s == Shape.block || s == Shape.closure

/-- Per-token width contribution of the collection estimator (the closure
inside mod.rs `Formatter::estimate_collection_length`). -/
def collectionTokenLen (trimmed : Str) (depth : Nat) : Nat :=
  if trimmed == [obrace] || trimmed == [obrack] then 1
  else if trimmed == [cbrace] || trimmed == [cbrack] then
    if depth > 1 then 1 else 0
  else if trimmed == [colonChar] || trimmed == [commaChar] then 2
  else trimmed.length

/-- Estimate collection length by looking ahead (mod.rs
`Formatter::estimate_collection_length`). -/
def estimate_collection_length (tokens : List Token) (index : Nat) : Nat × Bool :=
  estimate_delimited_length tokens index collectionShapeMatches
    (fun trimmed => trimmed == [obrace] || trimmed == [obrack])
    (fun trimmed => trimmed == [cbrace] || trimmed == [cbrack])
    collectionTokenLen

/-- Estimate block length by looking ahead (mod.rs
`Formatter::estimate_block_length`). -/
def estimate_block_length (tokens : List Token) (index : Nat) : Nat × Bool :=
  estimate_delimited_length tokens index blockShapeMatches
    (fun trimmed => startsWith trimmed obrace)
    (fun trimmed => endsWith trimmed cbrace)
    (fun trimmed _ => trimmed.length)

/-- Backward scan of mod.rs `Formatter::is_in_multiline_collection`,
expressed on the reversed already-consumed prefix of the token vector. -/
def isInMultilineGo : List Token → Nat → Bool
  | [], _ => false
  | t :: rest, depth =>
    let trimmed := trim t.text
    if collectionShapeMatches t.shape then
      if trimmed == [cbrace] || trimmed == [cbrack] then
        isInMultilineGo rest (depth + 1)
      else if trimmed == [obrace] || trimmed == [obrack] then
        if depth = 0 then hasChar t.text nl || hasChar t.gap_before nl
        else isInMultilineGo rest (depth - 1)
      else isInMultilineGo rest depth
    else isInMultilineGo rest depth

/-- Check whether the emitter is inside a multiline collection (mod.rs
`Formatter::is_in_multiline_collection`); `index` is the post-increment
token index, so the scan starts at the current token. -/
def is_in_multiline_collection (tokens : List Token) (index : Nat) : Bool :=
  isInMultilineGo ((tokens.take index).reverse) 0

/-- Per-line loop of mod.rs `Formatter::format_structural_gap` (the
multiline branch), threading the doc vector, the indent state and the
`need_newline_before_next` flag. -/
def structuralLinesGo (cfg : Config) (total : Nat) :
    List Str → Nat → FmtSt → Bool → List Str × FmtSt × Bool
  | [], _, st, needNl => ([], st, needNl)
  | line :: rest, i, st, needNl =>
    let trimmed := trim line
    let isLast := i == total - 1
    if trimmed.isEmpty then
      let needNl2 := if !(i == 0) && !isLast then true else needNl
      structuralLinesGo cfg total rest (i + 1) st needNl2
    else
      let lineOpens := countChar obrace trimmed
      let lineCloses := countChar cbrace trimmed
      if i == 0 then
        if trimmed == [commaChar] then
          let (docsR, stR, needR) := structuralLinesGo cfg total rest (i + 1) st true
          ([([commaChar] : Str)] ++ docsR, stR, needR)
        else if endsWith trimmed obrace then
          let st2 := { st with indent_level := st.indent_level + lineOpens }
          let docsHere := [([spaceChar] : Str), trimmed, [nl], indent_str cfg st2]
          let (docsR, stR, needR) := structuralLinesGo cfg total rest (i + 1) st2 false
          (docsHere ++ docsR, stR, needR)
        else
          let st2 := { st with indent_level := (st.indent_level + lineOpens) - lineCloses }
          let (docsR, stR, needR) := structuralLinesGo cfg total rest (i + 1) st2 true
          ([([spaceChar] : Str), trimmed] ++ docsR, stR, needR)
      else
        let docsNl : List Str := if needNl then [[nl]] else []
        if trimmed == [cbrace] then
          let st2 := { st with indent_level := st.indent_level - 1 }
          let docsHere := docsNl ++ [indent_str cfg st2, trimmed]
          let (docsR, stR, needR) := structuralLinesGo cfg total rest (i + 1) st2 (!isLast)
          (docsHere ++ docsR, stR, needR)
        else
          let docsHere := docsNl ++ [indent_str cfg st, trimmed]
          let st2 := { st with indent_level := (st.indent_level + lineOpens) - lineCloses }
          let (docsR, stR, needR) := structuralLinesGo cfg total rest (i + 1) st2 (!isLast)
          (docsHere ++ docsR, stR, needR)

/-- Format a gap containing structural delimiters (mod.rs
`Formatter::format_structural_gap`). -/
def format_structural_gap (cfg : Config) (st : FmtSt) (gap : Str) : Str × FmtSt :=
  let hasNewline := hasChar gap nl
  let opens := countChar obrace gap
  let closes := countChar cbrace gap
  if !hasNewline then
    let trimmed := trim gap
    let docs : List Str :=
      if trimmed.isEmpty then [[spaceChar]]
      else if endsWith trimmed obrace then [[spaceChar], trimmed]
      else [[spaceChar], trimmed, [spaceChar]]
    let st2 := { st with indent_level := (st.indent_level + opens) - closes }
    (joinDocs docs, st2)
  else
    let lines := splitOnChar nl gap
    let (docs, st2, needNl) := structuralLinesGo cfg lines.length lines 0 st false
    if needNl then
      (joinDocs (docs ++ [[nl], indent_str cfg st2]), st2)
    else
      let addSpace :=
        match gap.getLast? with
        | some c => !(c == nl) && !(isWs c) && !(c == obrace)
        | none => false
      if addSpace then (joinDocs (docs ++ [[spaceChar]]), st2)
      else (joinDocs docs, st2)

/-- Per-line loop of the general multiline branch of mod.rs
`Formatter::format_gap`, threading `first_line` and `emitted_newline`. -/
def gapLinesGo (indent : Str) (newlineCount : Nat) :
    List Str → Bool → Bool → List Str
  | [], _, _ => []
  | line :: rest, firstLine, emittedNewline =>
    let trimmed := trim line
    let hasMore := !rest.isEmpty
    match findChar trimmed hashChar with
    | some commentStart =>
      let before := trim (trimmed.take commentStart)
      let (docs1, emitted1) :=
        if !before.isEmpty then
          if !firstLine && !emittedNewline then
            ([([nl] : Str), indent, before, [spaceChar]], true)
          else if firstLine then
            ([([spaceChar] : Str), before, [spaceChar]], emittedNewline)
          else ([before, ([spaceChar] : Str)], emittedNewline)
        else ([], emittedNewline)
      let comment := trimmed.drop commentStart
      let (docs2, emitted2) :=
        if before.isEmpty then
          if firstLine then
            if startsWithWs line then ([([spaceChar] : Str)], emitted1)
            else ([], emitted1)
          else if !emitted1 then ([([nl] : Str), indent], true)
          else ([], emitted1)
        else ([], emitted1)
      let docs3 := docs1 ++ docs2 ++ [comment]
      let (docs4, emitted3) :=
        if hasMore then (docs3 ++ [([nl] : Str), indent], true)
        else (docs3, emitted2)
      docs4 ++ gapLinesGo indent newlineCount rest false emitted3
    | none =>
      if !trimmed.isEmpty then
        let (docs1, emitted1) :=
          if !firstLine && !emittedNewline then ([([nl] : Str), indent], true)
          else if firstLine && startsWithWs line then
            ([([spaceChar] : Str)], emittedNewline)
          else ([], emittedNewline)
        let docs2 := docs1 ++ [trimmed]
        let docs3 :=
          if hasMore then
            let nextTrimmed := trim (rest.headD [])
            if !(endsWith trimmed dotChar) && !nextTrimmed.isEmpty then
              docs2 ++ [([spaceChar] : Str)]
            else docs2
          else
            if !(endsWith trimmed dotChar) && endsWithWs line then
              docs2 ++ [([spaceChar] : Str)]
            else docs2
        docs3 ++ gapLinesGo indent newlineCount rest false emitted1
      else if hasMore && !firstLine then
        let (docs1, emitted1) :=
          if !emittedNewline then ([([nl] : Str)], true) else ([], emittedNewline)
        let docs2 := if newlineCount > 1 then docs1 ++ [([nl] : Str)] else docs1
        docs2 ++ gapLinesGo indent newlineCount rest false emitted1
      else
        gapLinesGo indent newlineCount rest false emittedNewline

/-- Format a gap between tokens (mod.rs `Formatter::format_gap`). -/
def format_gap (cfg : Config) (st : FmtSt) (gap : Str) : Str × FmtSt :=
  if gap.isEmpty then ([], st)
  else
    let hasNewline := hasChar gap nl
    let gapTrimmed := trim gap
    if !hasNewline then
      if gapTrimmed.isEmpty then ([spaceChar], st)
      else (([spaceChar] : Str) ++ gapTrimmed ++ [spaceChar], st)
    else
      let hasOpenBrace := hasChar gap obrace
      let hasCloseBrace := hasChar gap cbrace
      let hasCommaNewline :=
        hasSub gap [commaChar, nl] || hasSub gap [commaChar, crChar, nl]
      if hasOpenBrace || hasCloseBrace || hasCommaNewline then
        format_structural_gap cfg st gap
      else
        let newlineCount := countChar nl gap
        let docs := gapLinesGo (indent_str cfg st) newlineCount
          (splitOnChar nl gap) true false
        if docs.isEmpty then
          (([nl] : Str) ++ indent_str cfg st, st)
        else (joinDocs docs, st)

/-- Inner loop over the closing braces of one line in mod.rs
`Formatter::format_multi_close`. -/
def multiCloseBraces (cfg : Config) (hasNewline isFirst : Bool) :
    Nat → Nat → FmtSt → List Str × FmtSt
  | 0, _, st => ([], st)
  | count + 1, j, st =>
    let st2 := { st with indent_level := st.indent_level - 1 }
    let docsHere : List Str :=
      if hasNewline && (decide (j > 0) || !isFirst) then
        [[nl], indent_str cfg st2, [cbrace]]
      else [[cbrace]]
    let (docsR, stR) := multiCloseBraces cfg hasNewline isFirst count (j + 1) st2
    (docsHere ++ docsR, stR)

/-- Per-line loop of mod.rs `Formatter::format_multi_close`. -/
def multiCloseLines (cfg : Config) (hasNewline : Bool) :
    List Str → Nat → FmtSt → List Str × FmtSt
  | [], _, st => ([], st)
  | line :: rest, i, st =>
    let trimmed := trim line
    if trimmed.isEmpty then multiCloseLines cfg hasNewline rest (i + 1) st
    else
      let beforeDocs : List Str :=
        match findChar trimmed cbrace with
        | some bracePos =>
          let before := trim (trimmed.take bracePos)
          if before.isEmpty then [] else [before]
        | none => []
      let braceCount := countChar cbrace trimmed
      let (braceDocs, st2) := multiCloseBraces cfg hasNewline (i == 0) braceCount 0 st
      let (docsR, stR) := multiCloseLines cfg hasNewline rest (i + 1) st2
      (beforeDocs ++ braceDocs ++ docsR, stR)

/-- Format a token containing multiple closing braces (mod.rs
`Formatter::format_multi_close`). -/
def format_multi_close (cfg : Config) (st : FmtSt) (text : Str) : Str × FmtSt :=
  let hasNewline := hasChar text nl
  let (docs, st2) := multiCloseLines cfg hasNewline (splitOnChar nl text) 0 st
  (joinDocs docs, st2)

/-- Format a complete block in one token (mod.rs
`Formatter::format_complete_block`); the indent increment is undone before
returning, so the state is unchanged. Rust `str::lines()` is rendered as
split-on-newline because the subsequent per-line `trim` and empty filter
erase the two representations' differences (final empty piece, trailing
carriage returns). -/
def format_complete_block (cfg : Config) (st : FmtSt) (trimmed : Str)
    (sourceMultiline : Bool) : Str :=
  let inner :=
    match (stripPrefixChar obrace trimmed).bind (stripSuffixChar cbrace) with
    | some s => s
    | none => []
  let (params, body) := parse_closure_params inner
  let bodyTrimmed := trim body
  if bodyTrimmed.isEmpty then
    match params with
    | some p => ([obrace] : Str) ++ p ++ [spaceChar] ++ [cbrace]
    | none => ([obrace] : Str) ++ [spaceChar] ++ [cbrace]
  else
    let forceMultiline := sourceMultiline || hasChar body nl
    let openWithParams : Str :=
      match params with
      | some p => [obrace] ++ p
      | none => [obrace]
    if forceMultiline then
      let stIn := { st with indent_level := st.indent_level + 1 }
      let indent := indent_str cfg stIn
      let lines := ((splitOnChar nl body).map trim).filter (fun l => !l.isEmpty)
      let bodyDoc := intersperseJoin (lines.map (fun l => indent ++ l)) [nl]
      let closeIndent := indent_str cfg st
      openWithParams ++ [nl] ++ bodyDoc ++ [nl] ++ closeIndent ++ [cbrace]
    else
      openWithParams ++ [spaceChar] ++ bodyTrimmed ++ [spaceChar] ++ [cbrace]

/-- Format an opening brace token (mod.rs `Formatter::format_block_open`). -/
def format_block_open (cfg : Config) (tokens : List Token) (index : Nat)
    (st : FmtSt) (trimmed : Str) (sourceMultiline : Bool) : Str × FmtSt :=
  let est := estimate_block_length tokens index
  let forceMultiline := sourceMultiline || est.2 || decide (est.1 > cfg.max_width)
  let afterBrace :=
    match stripPrefixChar obrace trimmed with
    | some s => s
    | none => trimmed
  let pr := parse_closure_params afterBrace
  let openWithParams : Str :=
    match pr.1 with
    | some p => [obrace] ++ p
    | none => [obrace]
  let st2 := { st with indent_level := st.indent_level + 1 }
  let restTrimmed :=
    match pr.1 with
    | some _ => trim pr.2
    | none => trim afterBrace
  if forceMultiline then
    let indent := indent_str cfg st2
    if restTrimmed.isEmpty then
      (openWithParams ++ [nl] ++ indent, st2)
    else
      let contentLines := ((splitOnChar nl restTrimmed).map trim).filter (fun l => !l.isEmpty)
      let contentDocs := intersperseJoin (contentLines.map (fun l => indent ++ l)) [nl]
      (openWithParams ++ [nl] ++ contentDocs ++ [nl] ++ indent, st2)
  else
    (openWithParams ++ [spaceChar], st2)

/-- Format a closing brace token (mod.rs `Formatter::format_block_close`). -/
def format_block_close (cfg : Config) (st : FmtSt) (hasNewline : Bool) :
    Str × FmtSt :=
  let st2 := { st with indent_level := st.indent_level - 1 }
  if hasNewline then (([nl] : Str) ++ indent_str cfg st2 ++ [cbrace], st2)
  else (([spaceChar] : Str) ++ [cbrace], st2)

/-- Format a parenthesized block token (mod.rs
`Formatter::format_paren_block`). -/
def format_paren_block (cfg : Config) (st : FmtSt) (tok : Token) : Str × FmtSt :=
  let trimmed := trim tok.text
  let hasNewline := hasChar tok.text nl
  if trimmed == [oparen] then
    if hasNewline then
      let st2 := { st with indent_level := st.indent_level + 1 }
      (([oparen] : Str) ++ [nl] ++ indent_str cfg st2, st2)
    else (([oparen] : Str), st)
  else if trimmed == [cparen] then
    if hasNewline then
      let st2 := { st with indent_level := st.indent_level - 1 }
      (([nl] : Str) ++ indent_str cfg st2 ++ [cparen], st2)
    else (([cparen] : Str), st)
  else (tok.text, st)

/-- Format a brace block token (mod.rs `Formatter::format_brace_block`). -/
def format_brace_block (cfg : Config) (tokens : List Token) (index : Nat)
    (st : FmtSt) (tok : Token) : Str × FmtSt :=
  let trimmed := trim tok.text
  let hasOpen := startsWith trimmed obrace
  let hasClose := endsWith trimmed cbrace
  let hasNewline := hasChar tok.text nl
  let closeCount := countChar cbrace trimmed
  if !hasOpen && decide (closeCount > 1) then
    format_multi_close cfg st tok.text
  else if hasOpen && hasClose then
    (format_complete_block cfg st trimmed hasNewline, st)
  else if hasOpen then
    format_block_open cfg tokens index st trimmed hasNewline
  else if hasClose then
    format_block_close cfg st hasNewline
  else (tok.text, st)

/-- Format a block or closure token (mod.rs
`Formatter::format_block_token`). -/
def format_block_token (cfg : Config) (tokens : List Token) (index : Nat)
    (st : FmtSt) (tok : Token) : Str × FmtSt :=
  let trimmed := trim tok.text
  if startsWith trimmed obrace || endsWith trimmed cbrace then
    format_brace_block cfg tokens index st tok
  else if startsWith trimmed oparen || endsWith trimmed cparen then
    format_paren_block cfg st tok
  else (tok.text, st)

/-- Format a pipe token (mod.rs `Formatter::format_pipe_token`); `index` is
the post-increment token index, so `tokens[index]` is the next token. -/
def format_pipe_token (tokens : List Token) (index : Nat) (tok : Token) : Str :=
  let nextGapWillAddSpace :=
    match (tokens.drop index).head? with
    | some t => !t.gap_before.isEmpty
    | none => false
  let gapProvidedLeading := !tok.gap_before.isEmpty
  (if gapProvidedLeading then ([] : Str) else [spaceChar]) ++ [pipeChar] ++
    (if nextGapWillAddSpace then ([] : Str) else [spaceChar])

/-- Format an opening collection bracket (mod.rs
`Formatter::format_collection_open`). -/
def format_collection_open (cfg : Config) (tokens : List Token) (index : Nat)
    (st : FmtSt) (bracket : Str) (sourceMultiline : Bool) : Str × FmtSt :=
  let est := estimate_collection_length tokens index
  let forceMultiline := sourceMultiline || est.2 || decide (est.1 > cfg.max_width)
  if forceMultiline then
    let st2 := { st with indent_level := st.indent_level + 1 }
    (bracket ++ [nl] ++ indent_str cfg st2, st2)
  else if cfg.bracket_spacing == BracketSpacing.spaced then
    (bracket ++ [spaceChar], st)
  else (bracket, st)

/-- Format a closing collection bracket (mod.rs
`Formatter::format_collection_close`). -/
def format_collection_close (cfg : Config) (st : FmtSt) (bracket : Str)
    (sourceMultiline : Bool) : Str × FmtSt :=
  if sourceMultiline then
    let st2 := { st with indent_level := st.indent_level - 1 }
    let trailing : Str :=
      if cfg.trailing_comma == TrailingComma.always then [commaChar] else []
    (trailing ++ [nl] ++ indent_str cfg st2 ++ bracket, st2)
  else if cfg.bracket_spacing == BracketSpacing.spaced then
    (([spaceChar] : Str) ++ bracket, st)
  else (bracket, st)

/-- Format a composite closing like `?}` (mod.rs
`Formatter::format_collection_close_complex`). -/
def format_collection_close_complex (cfg : Config) (st : FmtSt) (trimmed : Str)
    (sourceMultiline : Bool) : Str × FmtSt :=
  let bracket := if hasChar trimmed cbrace then cbrace else cbrack
  let prefixPart := trimEndMatches bracket trimmed
  let doc0 : Str := if prefixPart.isEmpty then [] else prefixPart
  if sourceMultiline then
    let st2 := { st with indent_level := st.indent_level - 1 }
    let trailing : Str :=
      if cfg.trailing_comma == TrailingComma.always then [commaChar] else []
    (doc0 ++ trailing ++ [nl] ++ indent_str cfg st2 ++ [bracket], st2)
  else if cfg.bracket_spacing == BracketSpacing.spaced then
    (doc0 ++ [spaceChar] ++ [bracket], st)
  else (doc0 ++ [bracket], st)

/-- Format a newline separator in a collection (mod.rs
`Formatter::format_newline_separator`). -/
def format_newline_separator (cfg : Config) (st : FmtSt) : Str :=
  if cfg.trailing_comma == TrailingComma.always then
    ([commaChar] : Str) ++ [nl] ++ indent_str cfg st
  else ([nl] : Str) ++ indent_str cfg st

/-- Format a collection token containing a newline (mod.rs
`Formatter::format_token_with_newline`). -/
def format_token_with_newline (cfg : Config) (st : FmtSt) (tok : Token) : Str :=
  match findChar tok.text hashChar with
  | some commentStart =>
    let comment := trimEnd (tok.text.drop commentStart)
    (if cfg.trailing_comma == TrailingComma.always then ([commaChar] : Str) else []) ++
      [spaceChar] ++ comment ++ [nl] ++ indent_str cfg st
  | none => ([nl] : Str) ++ indent_str cfg st

/-- Format a record or list token (mod.rs
`Formatter::format_collection_token`). -/
def format_collection_token (cfg : Config) (tokens : List Token) (index : Nat)
    (st : FmtSt) (tok : Token) : Str × FmtSt :=
  let trimmed := trim tok.text
  let hasNewline := hasChar tok.text nl
  if trimmed == [obrace] || trimmed == [obrack] then
    format_collection_open cfg tokens index st trimmed hasNewline
  else if trimmed == [cbrace] || trimmed == [cbrack] then
    format_collection_close cfg st trimmed hasNewline
  else if trimmed == [colonChar] then
    (([colonChar] : Str) ++ [spaceChar], st)
  else if trimmed == [commaChar] then
    if is_in_multiline_collection tokens index then
      (([commaChar] : Str) ++ [nl] ++ indent_str cfg st, st)
    else (([commaChar] : Str) ++ [spaceChar], st)
  else if endsWith trimmed cbrace || endsWith trimmed cbrack then
    format_collection_close_complex cfg st trimmed hasNewline
  else if hasNewline && trimmed.isEmpty then
    (format_newline_separator cfg st, st)
  else if hasNewline then
    (format_token_with_newline cfg st tok, st)
  else (trimmed, st)

/-- Format a string token (mod.rs `Formatter::format_string_token`). -/
def format_string_token (cfg : Config) (tok : Token) : Str :=
  convert_string_quotes tok.text cfg.quote_style

/-- Format a single token by shape (mod.rs `Formatter::format_token`);
`index` is the post-increment token index. -/
def format_token (cfg : Config) (tokens : List Token) (index : Nat)
    (st : FmtSt) (tok : Token) : Str × FmtSt :=
  if tok.text.isEmpty && tok.shape == Shape.nothing then ([], st)
  else
    match tok.shape with
    | Shape.stringInterpolation =>
      let st2 :=
        if startsWith tok.text dollarChar then
          { st with interp_depth := st.interp_depth + 1 }
        else { st with interp_depth := st.interp_depth - 1 }
      (tok.text, st2)
    | Shape.block => format_block_token cfg tokens index st tok
    | Shape.closure => format_block_token cfg tokens index st tok
    | Shape.pipe => (format_pipe_token tokens index tok, st)
    | Shape.record => format_collection_token cfg tokens index st tok
    | Shape.list => format_collection_token cfg tokens index st tok
    | Shape.string => (format_string_token cfg tok, st)
    | _ => (tok.text, st)

/-- Main loop of the emitter (mod.rs `Formatter::format_all` together with
`format_next`). The Rust loop advances `index` over the token vector; here
the remaining suffix `tokens.drop index` is walked structurally (its head
is `tokens[index]`, the token the Rust iteration reads) while the whole
vector and the post-increment index are passed along for the lookahead and
lookback the token handlers perform. -/
def formatAllGo (cfg : Config) (tokens : List Token) :
    List Token → Nat → FmtSt → Str
  | [], _, _ => []
  | tok :: restTokens, index, st =>
    let g := format_gap cfg st tok.gap_before
    let t := format_token cfg tokens (index + 1) g.2 tok
    g.1 ++ t.1 ++ formatAllGo cfg tokens restTokens (index + 1) t.2

/-- Format tokens into a string (mod.rs `format_tokens`): preprocess,
emit, and guarantee a trailing newline. -/
def format_tokens (source : Str) (flattened : List (Span × Shape))
    (cfg : Config) : Str :=
  let tokens := preprocess_tokens source flattened
  let output := formatAllGo cfg tokens tokens 0 { indent_level := 0, interp_depth := 0 }
  if !(endsWith output nl) then output ++ [nl] else output

/-! Claim C2: trailing newline. -/

theorem ensure_trailing (output : Str) :
    (if !(endsWith output nl) then output ++ [nl] else output).getLast? = some nl := by
  by_cases h : endsWith output nl = true
  · rw [h]
    rw [if_neg (by simp)]
    unfold endsWith at h
    simpa using h
  · have hb : endsWith output nl = false := by simpa using h
    rw [hb]
    rw [if_pos (by simp)]
    simp

/-- C2 (amended): every output of `format_tokens` ends with a newline;
the final step of `format_tokens` appends one if the rendered document
lacks it. (The original claim - exactly one trailing newline - fails: see
the counterexample, where trailing blank lines of the source are carried
through the synthetic trailing token.) -/
theorem format_tokens_trailing_newline (source : Str)
    (flattened : List (Span × Shape)) (cfg : Config) :
    (format_tokens source flattened cfg).getLast? = some nl := by
  simp only [format_tokens]
  exact ensure_trailing _

/-- C2 counterexample: the source `ls` followed by three newlines (one
token spanning `ls`) formats to itself, so the output ends with three
newlines, not exactly one. -/
theorem format_tokens_trailing_counterexample :
    format_tokens [Char.ofNat 108, Char.ofNat 115, nl, nl, nl]
        [(⟨0, 2⟩, Shape.other)] Config.default =
      [Char.ofNat 108, Char.ofNat 115, nl, nl, nl] ∧
    List.isSuffixOf [nl, nl]
      (format_tokens [Char.ofNat 108, Char.ofNat 115, nl, nl, nl]
        [(⟨0, 2⟩, Shape.other)] Config.default) = true := by
  decide

/-! Claim C3: interpolation preservation. -/

/-- Source `$"a(1  +  2)"` (interpolated string whose subexpression
carries double spaces). -/
def interpSource : Str :=
  [dollarChar, dquo, Char.ofNat 97, oparen, Char.ofNat 49, spaceChar,
    spaceChar, Char.ofNat 43, spaceChar, spaceChar, Char.ofNat 50, cparen,
    dquo]

/-- Flattened tokens for `interpSource`: the opening `$"` and closing `"`
as `StringInterpolation`, the literal part as `String`, the subexpression
pieces as plain tokens with their whitespace gaps. -/
def interpFlat : List (Span × Shape) :=
  [(⟨0, 2⟩, Shape.stringInterpolation), (⟨2, 3⟩, Shape.string),
    (⟨3, 4⟩, Shape.other), (⟨4, 5⟩, Shape.other), (⟨7, 8⟩, Shape.other),
    (⟨10, 11⟩, Shape.other), (⟨11, 12⟩, Shape.other),
    (⟨12, 13⟩, Shape.stringInterpolation)]

/-- C3 counterexample: formatting `$"a(1  +  2)"` collapses the two-space
gaps inside the interpolation to single spaces, so the source substring
between the interpolation delimiters (`a(1  +  2)`, offsets 2-12) does not
occur in the output. -/
theorem interpolation_preservation_counterexample :
    format_tokens interpSource interpFlat Config.default =
      [dollarChar, dquo, Char.ofNat 97, oparen, Char.ofNat 49, spaceChar,
        Char.ofNat 43, spaceChar, Char.ofNat 50, cparen, dquo, nl] ∧
    hasSub (format_tokens interpSource interpFlat Config.default)
      (slice interpSource 2 12) = false := by
  decide

/-- C3 (amended): what the emitter actually guarantees is that every
`StringInterpolation`-shaped token is emitted byte-for-byte (its text is
the whole document produced for it); content between the delimiters that
the analyzer surfaces as separate tokens is reformatted like any other
content - gaps are rewritten and line breaks may be introduced, since
`interp_depth` is updated but never consulted by the emitter. -/
theorem interpolation_token_verbatim (cfg : Config) (tokens : List Token)
    (index : Nat) (st : FmtSt) (tok : Token)
    (h : tok.shape = Shape.stringInterpolation) :
    (format_token cfg tokens index st tok).1 = tok.text := by
  unfold format_token
  rw [h]
  simp

/-- C3 witness: the verbatim emission evaluated on a concrete opening
interpolation token. -/
theorem interpolation_token_verbatim_witness :
    (format_token Config.default [] 0 { indent_level := 0, interp_depth := 0 }
        { text := [dollarChar, dquo], shape := Shape.stringInterpolation,
          gap_before := [] }).1 = [dollarChar, dquo] :=
  interpolation_token_verbatim Config.default [] 0
    { indent_level := 0, interp_depth := 0 }
    { text := [dollarChar, dquo], shape := Shape.stringInterpolation,
      gap_before := [] } rfl

/-! Claim C7: the collection estimator's per-token contribution. -/

/-- Modelled from the spec: the claimed per-token contribution for
collections - `\x7b`/`[` contributes 1; `\x7d`/`]` contributes 1 unless it is
the final close that brings the bracket depth to 0 (the depth after the
decrement is 0), which contributes 0; `:` and `,` contribute 2; everything
else contributes the trimmed length. The depth argument is the
post-adjustment depth, as passed by `estimate_delimited_length`. -/
def collectionTokenLenSpec (trimmed : Str) (depth : Nat) : Nat :=
  if trimmed == [obrace] || trimmed == [obrack] then 1
  else if trimmed == [cbrace] || trimmed == [cbrack] then
    if depth = 0 then 0 else 1
  else if trimmed == [colonChar] || trimmed == [commaChar] then 2
  else trimmed.length

/-- Modelled from the spec: the collection estimator as claimed, using
`collectionTokenLenSpec` for the per-token contribution. -/
def estimateCollectionSpec (tokens : List Token) (index : Nat) : Nat × Bool :=
  estimate_delimited_length tokens index collectionShapeMatches
    (fun trimmed => trimmed == [obrace] || trimmed == [obrack])
    (fun trimmed => trimmed == [cbrace] || trimmed == [cbrack])
    collectionTokenLenSpec

/-- The contribution the code actually implements, in the amended claim's
words: a closer contributes 1 only while at least two enclosing brackets
remain open after it (post-decrement depth at least 2); both the final
close (depth 0) and a close returning to depth 1 contribute 0. -/
def collectionTokenLenAmended (trimmed : Str) (depth : Nat) : Nat :=
  if trimmed == [obrace] || trimmed == [obrack] then 1
  else if trimmed == [cbrace] || trimmed == [cbrack] then
    if 2 ≤ depth then 1 else 0
  else if trimmed == [colonChar] || trimmed == [commaChar] then 2
  else trimmed.length

/-- The collection estimator with the amended contribution. -/
def estimateCollectionAmended (tokens : List Token) (index : Nat) : Nat × Bool :=
  estimate_delimited_length tokens index collectionShapeMatches
    (fun trimmed => trimmed == [obrace] || trimmed == [obrack])
    (fun trimmed => trimmed == [cbrace] || trimmed == [cbrack])
    collectionTokenLenAmended

/-- C7 counterexample: estimating a list containing one nested list
(tokens `[`, `]`, `]` after the opener), the code charges the inner closer
0 (post-decrement depth 1) where the claim charges it 1: the code yields
width 3, the claimed rule yields width 4. -/
theorem estimator_close_contribution_counterexample :
    estimate_collection_length
        [{ text := [obrack], shape := Shape.list, gap_before := [] },
          { text := [cbrack], shape := Shape.list, gap_before := [] },
          { text := [cbrack], shape := Shape.list, gap_before := [] }] 0 =
      (3, false) ∧
    estimateCollectionSpec
        [{ text := [obrack], shape := Shape.list, gap_before := [] },
          { text := [cbrack], shape := Shape.list, gap_before := [] },
          { text := [cbrack], shape := Shape.list, gap_before := [] }] 0 =
      (4, false) := by
  decide

/-- C7 (amended): the estimator's per-token contribution is as claimed for
openers, `:`, `,` and plain tokens, but a closer contributes 1 only when
the post-decrement depth still exceeds 1 - it contributes 0 for the final
close and for any close returning to depth 1. -/
theorem estimator_contribution_amended (tokens : List Token) (index : Nat) :
    estimate_collection_length tokens index =
      estimateCollectionAmended tokens index := rfl

/-! Claim C4: error filtering in format_source. -/

/-- Parse error kinds (nu_protocol `ParseError`): the twelve variants
matched by mod.rs `is_resolution_error`, plus `otherNonResolution`
standing for every remaining variant of the upstream enum (none of which
the match accepts). -/
inductive PError where
  | variableNotFound
  | moduleNotFound
  | moduleOrOverlayNotFound
  | activeOverlayNotFound
  | exportNotFound
  | fileNotFound
  | sourcedFileNotFound
  | registeredFileNotFound
  | pluginNotFound
  | unknownCommand
  | extraPositional
  | inputMismatch
  | otherNonResolution
deriving DecidableEq, Repr

/-- mod.rs `is_resolution_error`. -/
def is_resolution_error (e : PError) : Bool :=
  match e with
  | PError.variableNotFound => true
  | PError.moduleNotFound => true
  | PError.moduleOrOverlayNotFound => true
  | PError.activeOverlayNotFound => true
  | PError.exportNotFound => true
  | PError.fileNotFound => true
  | PError.sourcedFileNotFound => true
  | PError.registeredFileNotFound => true
  | PError.pluginNotFound => true
  | PError.unknownCommand => true
  | PError.extraPositional => true
  | PError.inputMismatch => true
  | PError.otherNonResolution => false

/-- The formatter's error type (format/error.rs `FormatError`): its single
variant `ParseError`. The message, help and location payload built by
`from_parse_error` is irrelevant to the claims; the offending parse error
is carried instead. -/
inductive FormatError where
  | parseError (e : PError)
deriving DecidableEq, Repr

/-- mod.rs `format_source`, with the upstream analyzer abstracted: the
parser and flattener are an external dependency (nu_parser), so the
reported parse errors and the flattened span list are inputs. The control
flow is that of `format_source`: the first parse error that is not a
resolution error aborts with `FormatError::ParseError`; otherwise the
token pipeline's output is returned. -/
def format_source (parse_errors : List PError) (source : Str)
    (flattened : List (Span × Shape)) (cfg : Config) :
    Except FormatError Str :=
  match parse_errors.find? (fun e => !is_resolution_error e) with
  | some e => Except.error (FormatError.parseError e)
  | none => Except.ok (format_tokens source flattened cfg)

/-- C4: `format_source` returns an error exactly when the parser reports
at least one non-resolution error (so resolution errors alone never fail
a format call), and any returned error is a `ParseError` carrying one of
the reported non-resolution errors. -/
theorem format_source_error_iff (parse_errors : List PError) (source : Str)
    (flattened : List (Span × Shape)) (cfg : Config) :
    ((∃ fe, format_source parse_errors source flattened cfg =
        Except.error fe) ↔
      ∃ e ∈ parse_errors, is_resolution_error e = false) ∧
    (∀ fe, format_source parse_errors source flattened cfg =
        Except.error fe →
      ∃ pe, fe = FormatError.parseError pe ∧ pe ∈ parse_errors ∧
        is_resolution_error pe = false) := by
  unfold format_source
  cases hfind : parse_errors.find? (fun e => !is_resolution_error e) with
  | some e =>
    have hmem : e ∈ parse_errors := List.mem_of_find?_eq_some hfind
    have hp := List.find?_some hfind
    have hres : is_resolution_error e = false := by simpa using hp
    refine ⟨⟨fun _ => ⟨e, hmem, hres⟩,
      fun _ => ⟨FormatError.parseError e, rfl⟩⟩, ?_⟩
    intro fe hfe
    exact ⟨e, (Except.error.inj hfe).symm, hmem, hres⟩
  | none =>
    refine ⟨⟨?_, ?_⟩, ?_⟩
    · rintro ⟨fe, hfe⟩
      exact Except.noConfusion hfe
    · rintro ⟨e, hmem, hres⟩
      have hnone := List.find?_eq_none.mp hfind e hmem
      simp [hres] at hnone
    · intro fe hfe
      exact Except.noConfusion hfe

/-- C4 witness: the error filter evaluated on a single non-resolution
parse error; the call fails with `ParseError` carrying it. -/
theorem format_source_error_iff_witness :
    ∃ pe, FormatError.parseError PError.otherNonResolution =
        FormatError.parseError pe ∧
      pe ∈ [PError.otherNonResolution] ∧ is_resolution_error pe = false :=
  (format_source_error_iff [PError.otherNonResolution] [] [] Config.default).2
    (FormatError.parseError PError.otherNonResolution) rfl

end Nufmt
